import Mathlib

/-! # ast2llm-go: data model of `internal/types/types.go`

Shallow embedding of the Go declarations of `internal/types/types.go`
(`FileInfo`, `StructField`, `StructMethod`, `StructInfo`, `Node`,
`DependencyGraph` and their three constructors), followed by the two
reduction steps the specification describes over these types (the Type
Registry of §4.2 and the Graph Builder of §4.3).

Conventions of the embedding:
* a Go `string` is a `String`, a Go slice `[]T` is a `List T`;
* a Go pointer `*T` held in a slice or map is the value it points to;
* a Go `map[string]V` is an association list `GoMap V` read and written
  only through `GoMap.get` and `GoMap.set`, which keep its keys distinct;
* the zero value of a `string` field is `""`.
-/

namespace Types

/-! ## Go maps -/

/-- A Go `map[string]V`: an association list whose keys are kept distinct by `GoMap.set`. -/
abbrev GoMap (V : Type) := List (String × V)

/-- The Go expression `make(map[string]V)`: the map with no entries. -/
def GoMap.make (V : Type) : GoMap V := []

/-- The Go lookup `m[k]` with its presence flag: `some v` when the key is present. -/
def GoMap.get {V : Type} : GoMap V → String → Option V
  | [], _ => none
  | (k', v) :: rest, k => if k' = k then some v else GoMap.get rest k

/-- The Go assignment `m[k] = v`: replaces the entry of `k`, or adds one. -/
def GoMap.set {V : Type} : GoMap V → String → V → GoMap V
  | [], k, v => [(k, v)]
  | (k', v') :: rest, k, v =>
    if k' = k then (k, v) :: rest else (k', v') :: GoMap.set rest k v

/-- The keys of a Go map. -/
def GoMap.keys {V : Type} (m : GoMap V) : List String := m.map Prod.fst

/-- The Go builtin `len(m)` on a map. -/
def GoMap.size {V : Type} (m : GoMap V) : Nat := m.length

/-! ## The declarations of `types.go` -/

/-- StructField represents a field within a struct. -/
structure StructField where
  /-- Field name -/
  Name : String
  /-- Field type (Go field `Type`, a reserved word here) -/
  Type_ : String
  deriving DecidableEq

/-- StructMethod represents a method associated with a struct. -/
structure StructMethod where
  /-- Method name -/
  Name : String
  /-- Method comment -/
  Comment : String
  /-- List of parameter types -/
  Parameters : List String
  /-- List of return types -/
  ReturnTypes : List String
  deriving DecidableEq

/-- StructInfo represents detailed information about a struct. -/
structure StructInfo where
  /-- Struct name -/
  Name : String
  /-- Struct comment -/
  Comment : String
  /-- List of fields -/
  Fields : List StructField
  /-- List of methods -/
  Methods : List StructMethod
  deriving DecidableEq

/-- FileInfo represents the parsed information about a Go file. -/
structure FileInfo where
  /-- Name of the package -/
  PackageName : String
  /-- List of imported packages -/
  Imports : List String
  /-- List of function names -/
  Functions : List String
  /-- List of structs with their comments, fields, and methods -/
  Structs : List StructInfo
  /-- List of imported structs used in the file, with fields and methods -/
  UsedImportedStructs : List StructInfo
  deriving DecidableEq

/-- Node represents a package in the dependency graph. -/
structure Node where
  /-- Package path -/
  PkgPath : String
  /-- Exported functions -/
  Functions : List String
  /-- Imported packages -/
  DependsOn : List String
  /-- Source files in the package -/
  Files : List String
  deriving DecidableEq

/-- DependencyGraph represents the project's dependency structure. -/
structure DependencyGraph where
  /-- Key: package path -/
  Nodes : GoMap Node
  deriving DecidableEq

/-- NewFileInfo creates a new FileInfo instance: the four slices are made with
length 0 and `PackageName`, not mentioned in the literal, has the zero value. -/
def NewFileInfo : FileInfo :=
  { PackageName := ""
    Imports := []
    Functions := []
    Structs := []
    UsedImportedStructs := [] }

/-- NewStructInfo creates a new StructInfo instance: the two slices are made
with length 0 and `Name`, `Comment`, not mentioned in the literal, have the
zero value. -/
def NewStructInfo : StructInfo :=
  { Name := ""
    Comment := ""
    Fields := []
    Methods := [] }

/-- NewDependencyGraph creates a new DependencyGraph instance. -/
def NewDependencyGraph : DependencyGraph :=
  { Nodes := GoMap.make Node }

/-! ## Sets kept in slices

`Node.Functions`, `Node.DependsOn` and `Node.Files` are Go slices which the
specification (§3) reads as sets. A set kept in a slice grows by appending the
elements that are not yet in it. -/

/-- Adds `x` to a set kept in a slice: appended at the end unless already there. -/
def addUnique (acc : List String) (x : String) : List String :=
  if x ∈ acc then acc else acc ++ [x]

/-- Unions the elements of `xs`, in order, into a set kept in a slice. -/
def unionInto (acc xs : List String) : List String :=
  xs.foldl addUnique acc

/-- Inserts `x` into a slice keyed by `key`: the entry with the key of `x` is
replaced in place by `x` (the later value wins), and `x` is appended when no
entry has its key. -/
def upsertBy {α : Type} (key : α → String) : List α → α → List α
  | [], x => [x]
  | y :: rest, x => if key y = key x then x :: rest else y :: upsertBy key rest x

/-- The field names of a StructInfo, in slice order. -/
def StructInfo.fieldNames (s : StructInfo) : List String :=
  s.Fields.map StructField.Name

/-- The method names of a StructInfo, in slice order. -/
def StructInfo.methodNames (s : StructInfo) : List String :=
  s.Methods.map StructMethod.Name

/-! ## Type Registry (specification §4.2) -/

/-- Modelled from the spec: the union of two field lists of §4.2, absent from
`types.go`: "union Fields (by field name, later declaration wins a conflicting
type)". -/
def unionFields (old new : List StructField) : List StructField :=
  new.foldl (upsertBy StructField.Name) old

/-- Modelled from the spec: the union of two method lists of §4.2, absent from
`types.go`: "union Methods (by method name, later declaration wins on
conflict)". -/
def unionMethods (old new : List StructMethod) : List StructMethod :=
  new.foldl (upsertBy StructMethod.Name) old

/-- Modelled from the spec: the merge of an incoming StructInfo into the one
already registered under its name (§4.2), absent from `types.go`. The comment is
the "first non-empty doc comment encountered" (§3). -/
def mergeStructInfo (old new : StructInfo) : StructInfo :=
  { Name := old.Name
    Comment := if old.Comment = "" then new.Comment else old.Comment
    Fields := unionFields old.Fields new.Fields
    Methods := unionMethods old.Methods new.Methods }

/-- Modelled from the spec: one step of the Type Registry merge (§4.2), absent
from `types.go`: "for each incoming StructInfo, if absent, insert a copy; if
present, union Fields ... and union Methods". -/
def registryAdd (reg : GoMap StructInfo) (s : StructInfo) : GoMap StructInfo :=
  match reg.get s.Name with
  | none => reg.set s.Name s
  | some old => reg.set s.Name (mergeStructInfo old s)

/-- Modelled from the spec: the Type Registry of one package (§4.2), absent from
`types.go`: "given the sequence of per-file StructInfo lists for a single
package (in file-processing order), produce one StructInfo per distinct name",
starting from "an empty mapping name→StructInfo". -/
def typeRegistry (files : List (List StructInfo)) : GoMap StructInfo :=
  files.foldl (fun reg structs => structs.foldl registryAdd reg) (GoMap.make StructInfo)

/-! ## Graph Builder (specification §4.3)

The Graph Builder receives, for every file, its identifier (its path) together
with its `FileInfo`, and "a function mapping a file path to its owning package
path" (§6), here `pkgOf`. Which function names are exported is "the source
language's visibility convention" (§3), here the predicate `exported`. -/

/-- Modelled from the spec: the Node a package gets "the first time any file
declares membership in that package path" (§3), absent from `types.go`. -/
def newNode (pkgPath : String) : Node :=
  { PkgPath := pkgPath
    Functions := []
    DependsOn := []
    Files := [] }

/-- Modelled from the spec: one step of the Graph Builder (§4.3), absent from
`types.go`: "resolve or create the Node ... Add the file identifier to the
Node's file set; union the file's exported function names into the Node's
exported-functions set; union the file's import paths into the Node's
depends-on set, excluding the package's own path (no self-edges) and collapsing
duplicates". -/
def addFile (pkgOf : String → String) (exported : String → Bool)
    (g : DependencyGraph) (file : String × FileInfo) : DependencyGraph :=
  let pkgPath := pkgOf file.1
  let node := (g.Nodes.get pkgPath).getD (newNode pkgPath)
  { Nodes := g.Nodes.set pkgPath
      { PkgPath := node.PkgPath
        Functions := unionInto node.Functions (file.2.Functions.filter exported)
        DependsOn := unionInto node.DependsOn (file.2.Imports.filter (fun i => i ≠ pkgPath))
        Files := addUnique node.Files file.1 } }

/-- Modelled from the spec: the Graph Builder (§4.3), absent from `types.go`:
"given all FileInfo records for a project, produce a DependencyGraph", one
`addFile` step per file starting from `NewDependencyGraph`. -/
def buildGraph (pkgOf : String → String) (exported : String → Bool)
    (files : List (String × FileInfo)) : DependencyGraph :=
  files.foldl (addFile pkgOf exported) NewDependencyGraph

/-- The slice `proj n` of the Node found by a lookup, and the empty slice when
the lookup finds nothing. -/
def sliceOf {V : Type} (proj : V → List String) : Option V → List String
  | some n => proj n
  | none => []

/-! ## Invariants of a dependency graph -/

/-- No Node of the graph lists its own package path in `DependsOn`. -/
def NoSelfEdge (g : DependencyGraph) : Prop :=
  ∀ e ∈ g.Nodes, e.2.PkgPath ∉ e.2.DependsOn

/-- No Node of the graph lists a package path twice in `DependsOn`. -/
def NoDuplicate (g : DependencyGraph) : Prop :=
  ∀ e ∈ g.Nodes, e.2.DependsOn.Nodup

/-- Every Node of the graph is stored under its own package path. -/
def KeyIsPkgPath (g : DependencyGraph) : Prop :=
  ∀ e ∈ g.Nodes, e.2.PkgPath = e.1

instance (g : DependencyGraph) : Decidable (NoSelfEdge g) := by
  unfold NoSelfEdge; infer_instance

instance (g : DependencyGraph) : Decidable (NoDuplicate g) := by
  unfold NoDuplicate; infer_instance

instance (g : DependencyGraph) : Decidable (KeyIsPkgPath g) := by
  unfold KeyIsPkgPath; infer_instance

/-! ## The scenarios of specification §8 -/

/-- The method `func (f Foo) Bar() string` of `a.go`. -/
def methodBar : StructMethod :=
  { Name := "Bar", Comment := "", Parameters := [], ReturnTypes := ["string"] }

/-- The method `func (f Foo) Baz() int` of `b.go`. -/
def methodBaz : StructMethod :=
  { Name := "Baz", Comment := "", Parameters := [], ReturnTypes := ["int"] }

/-- The struct list of `a.go`, which declares `type Foo struct{X int}` and the
method `Bar` on it (§4.1: fields from the member list, the method attached to
the StructInfo of its receiver). -/
def structsOfA : List StructInfo :=
  [{ NewStructInfo with
      Name := "Foo", Fields := [{ Name := "X", Type_ := "int" }], Methods := [methodBar] }]

/-- The struct list of `b.go`, which declares only the method `Baz` on `Foo`:
a placeholder StructInfo, "name only, empty comment", holds the method (§4.1). -/
def structsOfB : List StructInfo :=
  [{ NewStructInfo with Name := "Foo", Methods := [methodBaz] }]

/-- The graph of the import cycle of §8: `pkg/a` depends on `pkg/b` and
`pkg/b` depends on `pkg/a`. -/
def cycleGraph : DependencyGraph :=
  { Nodes := ((GoMap.make Node).set "pkg/a"
        { PkgPath := "pkg/a", Functions := [], DependsOn := ["pkg/b"], Files := [] }).set "pkg/b"
        { PkgPath := "pkg/b", Functions := [], DependsOn := ["pkg/a"], Files := [] } }

/-- A StructInfo value with two entries named `Bar` in its `Methods` slice. -/
def twoBars : StructInfo :=
  { NewStructInfo with
      Name := "Foo"
      Methods := [methodBar, { Name := "Bar", Comment := "", Parameters := [], ReturnTypes := ["int"] }] }

/-- A project layout: the files `pkg/a/a.go` and `pkg/a/util.go` belong to the
package `pkg/a`, every other file to `pkg/b`. -/
def layout (path : String) : String :=
  if path = "pkg/a/a.go" ∨ path = "pkg/a/util.go" then "pkg/a" else "pkg/b"

/-- A visibility convention on plain names: exported when the first letter is
an upper-case letter `A` ... `Z`. -/
def upperFirst (name : String) : Bool :=
  match name.toList with
  | [] => false
  | c :: _ => decide ('A' ≤ c ∧ c ≤ 'Z')

/-- The file `pkg/a/a.go`: imports its own package path, `pkg/b` and `fmt`. -/
def fileA : String × FileInfo :=
  ("pkg/a/a.go",
    { NewFileInfo with
        PackageName := "a"
        Imports := ["pkg/a", "pkg/b", "fmt"]
        Functions := ["Run", "helper"] })

/-- The file `pkg/a/util.go`: imports `fmt` and `os`. -/
def fileUtil : String × FileInfo :=
  ("pkg/a/util.go",
    { NewFileInfo with
        PackageName := "a"
        Imports := ["fmt", "os"]
        Functions := ["Run", "Stop"] })

/-- The file `pkg/b/b.go`: imports `pkg/a`. -/
def fileB : String × FileInfo :=
  ("pkg/b/b.go",
    { NewFileInfo with
        PackageName := "b"
        Imports := ["pkg/a"]
        Functions := ["New"] })

/-! ## Lemmas on sets kept in slices -/

theorem mem_addUnique (acc : List String) (x y : String) :
    y ∈ addUnique acc x ↔ y ∈ acc ∨ y = x := by
  unfold addUnique
  by_cases h : x ∈ acc
  · simp only [h, if_true]
    constructor
    · intro hy; exact Or.inl hy
    · rintro (hy | rfl)
      · exact hy
      · exact h
  · simp [h]

theorem nodup_addUnique (acc : List String) (x : String) (h : acc.Nodup) :
    (addUnique acc x).Nodup := by
  unfold addUnique
  by_cases hx : x ∈ acc
  · simpa [hx] using h
  · simp only [hx, if_false]
    rw [List.nodup_append]
    refine ⟨h, List.nodup_singleton x, ?_⟩
    intro a ha hb
    simp only [List.mem_singleton] at hb
    exact hx (hb ▸ ha)

theorem mem_unionInto (xs : List String) :
    ∀ (acc : List String) (y : String), y ∈ unionInto acc xs ↔ y ∈ acc ∨ y ∈ xs := by
  induction xs with
  | nil => intro acc y; simp [unionInto]
  | cons x rest ih =>
    intro acc y
    have step : unionInto acc (x :: rest) = unionInto (addUnique acc x) rest := rfl
    rw [step, ih, mem_addUnique, List.mem_cons]
    tauto

theorem nodup_unionInto (xs : List String) :
    ∀ (acc : List String), acc.Nodup → (unionInto acc xs).Nodup := by
  induction xs with
  | nil => intro acc h; simpa [unionInto] using h
  | cons x rest ih =>
    intro acc h
    have step : unionInto acc (x :: rest) = unionInto (addUnique acc x) rest := rfl
    rw [step]
    exact ih _ (nodup_addUnique acc x h)

theorem map_upsertBy {α : Type} (key : α → String) (x : α) :
    ∀ l : List α, (upsertBy key l x).map key = addUnique (l.map key) (key x) := by
  intro l
  induction l with
  | nil => simp [upsertBy, addUnique]
  | cons y rest ih =>
    by_cases h : key y = key x
    · simp [upsertBy, addUnique, h]
    · have hne : ¬ key x = key y := fun e => h e.symm
      by_cases hm : key x ∈ rest.map key
      · have hm' : ∃ a ∈ rest, key a = key x := by simpa using hm
        simp [upsertBy, addUnique, h, hne, hm'] at ih ⊢
        exact ih
      · have hm' : ¬ ∃ a ∈ rest, key a = key x := by simpa using hm
        simp [upsertBy, addUnique, h, hne, hm'] at ih ⊢
        exact ih

/-! ## Lemmas on Go maps -/

theorem GoMap.get_set_self {V : Type} (k : String) (v : V) :
    ∀ m : GoMap V, (m.set k v).get k = some v := by
  intro m
  induction m with
  | nil => simp [GoMap.set, GoMap.get]
  | cons e rest ih =>
    obtain ⟨k', v'⟩ := e
    by_cases h : k' = k
    · simp [GoMap.set, GoMap.get, h]
    · simp [GoMap.set, GoMap.get, h, ih]

theorem GoMap.get_set_ne {V : Type} (k k2 : String) (v : V) (hne : k ≠ k2) :
    ∀ m : GoMap V, (m.set k v).get k2 = m.get k2 := by
  intro m
  induction m with
  | nil => simp [GoMap.set, GoMap.get, hne]
  | cons e rest ih =>
    obtain ⟨k', v'⟩ := e
    by_cases h : k' = k
    · subst h
      simp [GoMap.set, GoMap.get, hne]
    · by_cases h2 : k' = k2
      · subst h2
        simp [GoMap.set, GoMap.get, h]
      · simp [GoMap.set, GoMap.get, h, h2, ih]

theorem GoMap.keys_set {V : Type} (k : String) (v : V) (m : GoMap V) :
    (m.set k v).keys = addUnique m.keys k := by
  have h : ∀ l : GoMap V, l.set k v = upsertBy Prod.fst l (k, v) := by
    intro l
    induction l with
    | nil => rfl
    | cons e rest ih =>
      obtain ⟨k', v'⟩ := e
      simp [GoMap.set, upsertBy, ih]
  unfold GoMap.keys
  rw [h, map_upsertBy]

theorem GoMap.get_of_mem {V : Type} (k : String) (v : V) :
    ∀ m : GoMap V, m.keys.Nodup → (k, v) ∈ m → m.get k = some v := by
  intro m
  induction m with
  | nil => intro _ h; simp at h
  | cons e rest ih =>
    obtain ⟨k', v'⟩ := e
    intro hnd h
    have hnd' : k' ∉ GoMap.keys rest ∧ (GoMap.keys rest).Nodup := by
      simpa [GoMap.keys] using hnd
    rcases List.mem_cons.1 h with heq | hrest
    · have h1 : k = k' := congrArg Prod.fst heq
      have h2 : v = v' := congrArg Prod.snd heq
      simp [GoMap.get, h1, h2]
    · have hk : k ∈ GoMap.keys rest := List.mem_map.2 ⟨(k, v), hrest, rfl⟩
      have hne : ¬ k' = k := fun e => hnd'.1 (e ▸ hk)
      simp only [GoMap.get, hne, if_false]
      exact ih hnd'.2 hrest

/-! ## Lemmas on the Graph Builder -/

theorem get_addFile (pkgOf : String → String) (exported : String → Bool)
    (g : DependencyGraph) (file : String × FileInfo) (q : String) :
    (addFile pkgOf exported g file).Nodes.get q =
      if pkgOf file.1 = q then
        some
          { PkgPath := ((g.Nodes.get q).getD (newNode q)).PkgPath
            Functions := unionInto ((g.Nodes.get q).getD (newNode q)).Functions
              (file.2.Functions.filter exported)
            DependsOn := unionInto ((g.Nodes.get q).getD (newNode q)).DependsOn
              (file.2.Imports.filter (fun i => i ≠ q))
            Files := addUnique ((g.Nodes.get q).getD (newNode q)).Files file.1 }
      else g.Nodes.get q := by
  by_cases h : pkgOf file.1 = q
  · subst h
    simp [addFile, GoMap.get_set_self]
  · simp [addFile, h, GoMap.get_set_ne _ _ _ h]

/-- The properties every Node of a built graph has. -/
theorem addFile_inv (pkgOf : String → String) (exported : String → Bool)
    (g : DependencyGraph) (file : String × FileInfo)
    (hg : ∀ k n, g.Nodes.get k = some n →
      n.PkgPath = k ∧ k ∉ n.DependsOn ∧ n.Functions.Nodup ∧ n.DependsOn.Nodup ∧ n.Files.Nodup) :
    ∀ k n, (addFile pkgOf exported g file).Nodes.get k = some n →
      n.PkgPath = k ∧ k ∉ n.DependsOn ∧ n.Functions.Nodup ∧ n.DependsOn.Nodup ∧ n.Files.Nodup := by
  intro k n hn
  rw [get_addFile] at hn
  by_cases h : pkgOf file.1 = k
  · simp only [h, if_true, Option.some.injEq] at hn
    have hold : ((g.Nodes.get k).getD (newNode k)).PkgPath = k ∧
        k ∉ ((g.Nodes.get k).getD (newNode k)).DependsOn ∧
        ((g.Nodes.get k).getD (newNode k)).Functions.Nodup ∧
        ((g.Nodes.get k).getD (newNode k)).DependsOn.Nodup ∧
        ((g.Nodes.get k).getD (newNode k)).Files.Nodup := by
      cases hget : g.Nodes.get k with
      | none => simp [newNode]
      | some old => simpa using hg k old hget
    obtain ⟨h1, h2, h3, h4, h5⟩ := hold
    subst hn
    refine ⟨h1, ?_, nodup_unionInto _ _ h3, nodup_unionInto _ _ h4, nodup_addUnique _ _ h5⟩
    simp only [mem_unionInto, List.mem_filter]
    rintro (hk | ⟨_, hk⟩)
    · exact h2 hk
    · simp at hk
  · simp only [h, if_false] at hn
    exact hg k n hn

theorem foldl_addFile_inv (pkgOf : String → String) (exported : String → Bool)
    (files : List (String × FileInfo)) :
    ∀ g : DependencyGraph,
      (∀ k n, g.Nodes.get k = some n →
        n.PkgPath = k ∧ k ∉ n.DependsOn ∧ n.Functions.Nodup ∧ n.DependsOn.Nodup ∧
          n.Files.Nodup) →
      ∀ k n, (files.foldl (addFile pkgOf exported) g).Nodes.get k = some n →
        n.PkgPath = k ∧ k ∉ n.DependsOn ∧ n.Functions.Nodup ∧ n.DependsOn.Nodup ∧
          n.Files.Nodup := by
  induction files with
  | nil => intro g hg; simpa using hg
  | cons f rest ih =>
    intro g hg
    simp only [List.foldl_cons]
    exact ih _ (addFile_inv pkgOf exported g f hg)

theorem buildGraph_inv (pkgOf : String → String) (exported : String → Bool)
    (files : List (String × FileInfo)) (k : String) (n : Node)
    (h : (buildGraph pkgOf exported files).Nodes.get k = some n) :
    n.PkgPath = k ∧ k ∉ n.DependsOn ∧ n.Functions.Nodup ∧ n.DependsOn.Nodup ∧ n.Files.Nodup := by
  refine foldl_addFile_inv pkgOf exported files NewDependencyGraph ?_ k n h
  intro k n hn
  simp [NewDependencyGraph, GoMap.make, GoMap.get] at hn

theorem foldl_addFile_keys_nodup (pkgOf : String → String) (exported : String → Bool)
    (files : List (String × FileInfo)) :
    ∀ g : DependencyGraph, g.Nodes.keys.Nodup →
      (files.foldl (addFile pkgOf exported) g).Nodes.keys.Nodup := by
  induction files with
  | nil => intro g hg; simpa using hg
  | cons f rest ih =>
    intro g hg
    simp only [List.foldl_cons]
    apply ih
    simp only [addFile, GoMap.keys_set]
    exact nodup_addUnique _ _ hg

theorem foldl_addFile_isSome (pkgOf : String → String) (exported : String → Bool)
    (q : String) (files : List (String × FileInfo)) :
    ∀ g : DependencyGraph,
      (((files.foldl (addFile pkgOf exported) g).Nodes.get q).isSome = true ↔
        (g.Nodes.get q).isSome = true ∨ ∃ f ∈ files, pkgOf f.1 = q) := by
  induction files with
  | nil => intro g; simp
  | cons f rest ih =>
    intro g
    simp only [List.foldl_cons, ih, get_addFile, List.mem_cons, exists_eq_or_imp]
    by_cases h : pkgOf f.1 = q
    · simp [h]
    · simp [h]

/-- How a slice of the Node of package `q` grows along the files, for a slice
to which one `addFile` step adds `contrib q file`. -/
theorem foldl_addFile_mem (pkgOf : String → String) (exported : String → Bool)
    (proj : Node → List String) (contrib : String → String × FileInfo → List String)
    (hstep : ∀ (g : DependencyGraph) (f : String × FileInfo) (q x : String),
      x ∈ sliceOf proj ((addFile pkgOf exported g f).Nodes.get q) ↔
        x ∈ sliceOf proj (g.Nodes.get q) ∨ (pkgOf f.1 = q ∧ x ∈ contrib q f))
    (q x : String) (files : List (String × FileInfo)) :
    ∀ g : DependencyGraph,
      (x ∈ sliceOf proj ((files.foldl (addFile pkgOf exported) g).Nodes.get q) ↔
        x ∈ sliceOf proj (g.Nodes.get q) ∨ ∃ f ∈ files, pkgOf f.1 = q ∧ x ∈ contrib q f) := by
  induction files with
  | nil => intro g; simp
  | cons f rest ih =>
    intro g
    simp only [List.foldl_cons, ih, hstep, List.mem_cons, exists_eq_or_imp]
    tauto

theorem addFile_mem_Functions (pkgOf : String → String) (exported : String → Bool)
    (g : DependencyGraph) (f : String × FileInfo) (q x : String) :
    x ∈ sliceOf Node.Functions ((addFile pkgOf exported g f).Nodes.get q) ↔
      x ∈ sliceOf Node.Functions (g.Nodes.get q) ∨
        (pkgOf f.1 = q ∧ x ∈ f.2.Functions.filter exported) := by
  rw [get_addFile]
  by_cases h : pkgOf f.1 = q
  · cases hget : g.Nodes.get q <;> simp [h, sliceOf, mem_unionInto, newNode]
  · simp [h]

theorem addFile_mem_DependsOn (pkgOf : String → String) (exported : String → Bool)
    (g : DependencyGraph) (f : String × FileInfo) (q x : String) :
    x ∈ sliceOf Node.DependsOn ((addFile pkgOf exported g f).Nodes.get q) ↔
      x ∈ sliceOf Node.DependsOn (g.Nodes.get q) ∨
        (pkgOf f.1 = q ∧ x ∈ f.2.Imports.filter (fun i => i ≠ q)) := by
  rw [get_addFile]
  by_cases h : pkgOf f.1 = q
  · cases hget : g.Nodes.get q <;> simp [h, sliceOf, mem_unionInto, newNode]
  · simp [h]

theorem addFile_mem_Files (pkgOf : String → String) (exported : String → Bool)
    (g : DependencyGraph) (f : String × FileInfo) (q x : String) :
    x ∈ sliceOf Node.Files ((addFile pkgOf exported g f).Nodes.get q) ↔
      x ∈ sliceOf Node.Files (g.Nodes.get q) ∨ (pkgOf f.1 = q ∧ x ∈ [f.1]) := by
  rw [get_addFile]
  by_cases h : pkgOf f.1 = q
  · cases hget : g.Nodes.get q <;> simp [h, sliceOf, mem_addUnique, newNode]
  · simp [h]

/-! ## Lemmas on the Type Registry -/

theorem map_foldl_upsertBy {α : Type} (key : α → String) (new : List α) :
    ∀ old : List α,
      (new.foldl (upsertBy key) old).map key = unionInto (old.map key) (new.map key) := by
  induction new with
  | nil => intro old; simp [unionInto]
  | cons x rest ih =>
    intro old
    simp only [List.foldl_cons, ih, map_upsertBy, List.map_cons]
    rfl

theorem mem_upsertBy {α : Type} (key : α → String) (x y : α) :
    ∀ l : List α, y ∈ upsertBy key l x → y ∈ l ∨ y = x := by
  intro l
  induction l with
  | nil => intro h; simpa [upsertBy] using h
  | cons z rest ih =>
    intro h
    by_cases hz : key z = key x
    · simp only [upsertBy, hz, if_true, List.mem_cons] at h
      rcases h with h | h
      · exact Or.inr h
      · exact Or.inl (List.mem_cons_of_mem _ h)
    · simp only [upsertBy, hz, if_false, List.mem_cons] at h
      rcases h with h | h
      · exact Or.inl (h ▸ List.mem_cons_self _ _)
      · rcases ih h with h2 | h2
        · exact Or.inl (List.mem_cons_of_mem _ h2)
        · exact Or.inr h2

theorem mem_foldl_upsertBy {α : Type} (key : α → String) (y : α) (new : List α) :
    ∀ old : List α, y ∈ new.foldl (upsertBy key) old → y ∈ old ∨ y ∈ new := by
  induction new with
  | nil => intro old h; exact Or.inl (by simpa using h)
  | cons x rest ih =>
    intro old h
    simp only [List.foldl_cons] at h
    rcases ih _ h with h2 | h2
    · rcases mem_upsertBy key x y old h2 with h3 | h3
      · exact Or.inl h3
      · exact Or.inr (h3 ▸ List.mem_cons_self _ _)
    · exact Or.inr (List.mem_cons_of_mem _ h2)

theorem mergeStructInfo_fieldNames (old s : StructInfo) (x : String) :
    x ∈ (mergeStructInfo old s).Fields.map StructField.Name ↔
      x ∈ old.Fields.map StructField.Name ∨ x ∈ s.Fields.map StructField.Name := by
  simp only [mergeStructInfo, unionFields, map_foldl_upsertBy, mem_unionInto]

theorem mergeStructInfo_methodNames (old s : StructInfo) (x : String) :
    x ∈ (mergeStructInfo old s).Methods.map StructMethod.Name ↔
      x ∈ old.Methods.map StructMethod.Name ∨ x ∈ s.Methods.map StructMethod.Name := by
  simp only [mergeStructInfo, unionMethods, map_foldl_upsertBy, mem_unionInto]

theorem get_registryAdd (reg : GoMap StructInfo) (s : StructInfo) (k : String) :
    (registryAdd reg s).get k =
      if s.Name = k then
        some (match reg.get k with
          | none => s
          | some old => mergeStructInfo old s)
      else reg.get k := by
  by_cases h : s.Name = k
  · subst h
    cases hget : reg.get s.Name <;> simp [registryAdd, hget, GoMap.get_set_self]
  · cases hget : reg.get s.Name <;> simp [registryAdd, hget, h, GoMap.get_set_ne _ _ _ h]

theorem keys_registryAdd (reg : GoMap StructInfo) (s : StructInfo) :
    (registryAdd reg s).keys = addUnique reg.keys s.Name := by
  cases hget : reg.get s.Name <;> simp [registryAdd, hget, GoMap.keys_set]

theorem foldl_registryAdd_keys_nodup (structs : List StructInfo) :
    ∀ reg : GoMap StructInfo, reg.keys.Nodup →
      (structs.foldl registryAdd reg).keys.Nodup := by
  induction structs with
  | nil => intro reg h; simpa using h
  | cons s rest ih =>
    intro reg h
    simp only [List.foldl_cons]
    apply ih
    rw [keys_registryAdd]
    exact nodup_addUnique _ _ h

theorem foldl_files_keys_nodup (files : List (List StructInfo)) :
    ∀ reg : GoMap StructInfo, reg.keys.Nodup →
      (files.foldl (fun r structs => structs.foldl registryAdd r) reg).keys.Nodup := by
  induction files with
  | nil => intro reg h; simpa using h
  | cons f rest ih =>
    intro reg h
    simp only [List.foldl_cons]
    exact ih _ (foldl_registryAdd_keys_nodup f reg h)

/-- A property of the registered StructInfos that every incoming StructInfo has
and that the merge keeps holds of every StructInfo of the registry. -/
theorem foldl_registryAdd_inv (P : String → StructInfo → Prop)
    (hmerge : ∀ old s, old.Name = s.Name → P old.Name old → P s.Name s →
      P old.Name (mergeStructInfo old s))
    (structs : List StructInfo) :
    ∀ reg : GoMap StructInfo,
      (∀ k s, reg.get k = some s → s.Name = k ∧ P k s) →
      (∀ s ∈ structs, P s.Name s) →
      ∀ k s, (structs.foldl registryAdd reg).get k = some s → s.Name = k ∧ P k s := by
  induction structs with
  | nil => intro reg h _; simpa using h
  | cons t rest ih =>
    intro reg h hin
    simp only [List.foldl_cons]
    apply ih
    · intro k s hs
      rw [get_registryAdd] at hs
      by_cases hk : t.Name = k
      · subst hk
        simp only [if_true, Option.some.injEq] at hs
        have ht : P t.Name t := hin t (List.mem_cons_self _ _)
        cases hget : reg.get t.Name with
        | none =>
          simp only [hget] at hs
          subst hs
          exact ⟨rfl, ht⟩
        | some old =>
          simp only [hget] at hs
          obtain ⟨ho1, ho2⟩ := h _ old hget
          subst hs
          refine ⟨by simpa [mergeStructInfo] using ho1, ?_⟩
          have := hmerge old t ho1 (ho1 ▸ ho2) ht
          rw [ho1] at this
          exact this
      · simp only [hk, if_false] at hs
        exact h k s hs
    · intro s hs
      exact hin s (List.mem_cons_of_mem _ hs)

theorem foldl_files_inv (P : String → StructInfo → Prop)
    (hmerge : ∀ old s, old.Name = s.Name → P old.Name old → P s.Name s →
      P old.Name (mergeStructInfo old s))
    (files : List (List StructInfo)) :
    ∀ reg : GoMap StructInfo,
      (∀ k s, reg.get k = some s → s.Name = k ∧ P k s) →
      (∀ f ∈ files, ∀ s ∈ f, P s.Name s) →
      ∀ k s, (files.foldl (fun r structs => structs.foldl registryAdd r) reg).get k = some s →
        s.Name = k ∧ P k s := by
  induction files with
  | nil => intro reg h _; simpa using h
  | cons f rest ih =>
    intro reg h hin
    simp only [List.foldl_cons]
    apply ih
    · exact foldl_registryAdd_inv P hmerge f reg h (hin f (List.mem_cons_self _ _))
    · intro f' hf'
      exact hin f' (List.mem_cons_of_mem _ hf')

theorem foldl_registryAdd_isSome (k : String) (structs : List StructInfo) :
    ∀ reg : GoMap StructInfo,
      (((structs.foldl registryAdd reg).get k).isSome = true ↔
        (reg.get k).isSome = true ∨ ∃ s ∈ structs, s.Name = k) := by
  induction structs with
  | nil => intro reg; simp
  | cons t rest ih =>
    intro reg
    simp only [List.foldl_cons, ih, get_registryAdd, List.mem_cons, exists_eq_or_imp]
    by_cases h : t.Name = k
    · simp [h]
    · simp [h]

theorem foldl_files_isSome (k : String) (files : List (List StructInfo)) :
    ∀ reg : GoMap StructInfo,
      (((files.foldl (fun r structs => structs.foldl registryAdd r) reg).get k).isSome = true ↔
        (reg.get k).isSome = true ∨ ∃ f ∈ files, ∃ s ∈ f, s.Name = k) := by
  induction files with
  | nil => intro reg; simp
  | cons f rest ih =>
    intro reg
    simp only [List.foldl_cons, ih, foldl_registryAdd_isSome, List.mem_cons, exists_eq_or_imp]
    exact or_assoc

/-- How the names held by the StructInfo registered under `k` grow along the
incoming StructInfos, for a slice of names that the merge unions. -/
theorem foldl_registryAdd_mem (proj : StructInfo → List String)
    (hproj : ∀ old s x, x ∈ proj (mergeStructInfo old s) ↔ x ∈ proj old ∨ x ∈ proj s)
    (k x : String) (structs : List StructInfo) :
    ∀ reg : GoMap StructInfo,
      (x ∈ sliceOf proj ((structs.foldl registryAdd reg).get k) ↔
        x ∈ sliceOf proj (reg.get k) ∨ ∃ s ∈ structs, s.Name = k ∧ x ∈ proj s) := by
  induction structs with
  | nil => intro reg; simp
  | cons t rest ih =>
    intro reg
    simp only [List.foldl_cons, ih, get_registryAdd, List.mem_cons, exists_eq_or_imp]
    by_cases h : t.Name = k
    · cases hget : reg.get k <;> simp [h, sliceOf, hproj, or_assoc]
    · simp [h]

theorem foldl_files_mem (proj : StructInfo → List String)
    (hproj : ∀ old s x, x ∈ proj (mergeStructInfo old s) ↔ x ∈ proj old ∨ x ∈ proj s)
    (k x : String) (files : List (List StructInfo)) :
    ∀ reg : GoMap StructInfo,
      (x ∈ sliceOf proj ((files.foldl (fun r structs => structs.foldl registryAdd r) reg).get k) ↔
        x ∈ sliceOf proj (reg.get k) ∨ ∃ f ∈ files, ∃ s ∈ f, s.Name = k ∧ x ∈ proj s) := by
  induction files with
  | nil => intro reg; simp
  | cons f rest ih =>
    intro reg
    simp only [List.foldl_cons, ih, foldl_registryAdd_mem proj hproj, List.mem_cons,
      exists_eq_or_imp]
    exact or_assoc

/-! ## The constructors of `types.go` -/

/-- C10: NewDependencyGraph returns a graph with no Nodes: looking any package
path up in its Nodes map finds nothing, and the map has size 0. -/
theorem NewDependencyGraph_no_nodes (p : String) :
    NewDependencyGraph.Nodes.get p = none ∧ NewDependencyGraph.Nodes.size = 0 :=
  ⟨rfl, rfl⟩

/-- C5: NewFileInfo returns a FileInfo whose Imports, Functions, Structs and
UsedImportedStructs are empty sequences of length 0; in particular the
used-imported-structs slot is empty at creation and Imports has no duplicates. -/
theorem NewFileInfo_slices_empty :
    NewFileInfo.Imports = [] ∧ NewFileInfo.Functions = [] ∧ NewFileInfo.Structs = [] ∧
      NewFileInfo.UsedImportedStructs = [] ∧
      NewFileInfo.Imports.length = 0 ∧ NewFileInfo.Functions.length = 0 ∧
      NewFileInfo.Structs.length = 0 ∧ NewFileInfo.UsedImportedStructs.length = 0 ∧
      NewFileInfo.Imports.Nodup :=
  ⟨rfl, rfl, rfl, rfl, rfl, rfl, rfl, rfl, List.nodup_nil⟩

/-- C9: NewStructInfo returns a StructInfo with empty Name, empty Comment, no
Fields and no Methods, so setting only Name on its result gives the placeholder
type of the specification: that name, an empty comment and nothing else. -/
theorem NewStructInfo_placeholder (name : String) :
    NewStructInfo.Name = "" ∧ NewStructInfo.Comment = "" ∧
      NewStructInfo.Fields = [] ∧ NewStructInfo.Methods = [] ∧
      { NewStructInfo with Name := name } =
        ({ Name := name, Comment := "", Fields := [], Methods := [] } : StructInfo) :=
  ⟨rfl, rfl, rfl, rfl, rfl⟩

/-- C3, as stated, fails: the FileInfo returned by NewFileInfo does not have a
PackageName different from the empty string. -/
theorem NewFileInfo_packageName_not_nonempty : ¬ (NewFileInfo.PackageName ≠ "") := by
  decide

/-- C3, amended: the FileInfo returned by NewFileInfo has the empty string as
PackageName, and it has a non-empty package name exactly when a non-empty name
is then assigned to that field. -/
theorem NewFileInfo_packageName_zero :
    NewFileInfo.PackageName = "" ∧
      ∀ name : String, ({ NewFileInfo with PackageName := name }).PackageName ≠ "" ↔ name ≠ "" :=
  ⟨rfl, fun _ => Iff.rfl⟩

/-! ## The dependency graph -/

/-- C6: the graph type can represent an import cycle: a DependencyGraph with
exactly the two keys `pkg/a` and `pkg/b`, whose Node at `pkg/a` has PkgPath
`pkg/a` and DependsOn `[pkg/b]` and whose Node at `pkg/b` has PkgPath `pkg/b`
and DependsOn `[pkg/a]`, satisfying the no-self-edge, no-duplicate and
key-equals-PkgPath invariants. -/
theorem cycle_representable :
    ∃ g : DependencyGraph,
      g.Nodes.keys.Nodup ∧ g.Nodes.size = 2 ∧
      (∀ k : String, k ∈ g.Nodes.keys ↔ k = "pkg/a" ∨ k = "pkg/b") ∧
      (∃ a : Node, g.Nodes.get "pkg/a" = some a ∧ a.PkgPath = "pkg/a" ∧
        a.DependsOn = ["pkg/b"]) ∧
      (∃ b : Node, g.Nodes.get "pkg/b" = some b ∧ b.PkgPath = "pkg/b" ∧
        b.DependsOn = ["pkg/a"]) ∧
      NoSelfEdge g ∧ NoDuplicate g ∧ KeyIsPkgPath g := by
  refine ⟨cycleGraph, by decide, by decide, ?_, ⟨_, rfl, rfl, rfl⟩, ⟨_, rfl, rfl, rfl⟩,
    by decide, by decide, by decide⟩
  intro k
  simp [cycleGraph, GoMap.keys, GoMap.set, GoMap.make]

/-- C1: a package path never appears as a self-edge: in every graph the Graph
Builder builds from NewDependencyGraph, a Node found in the Nodes map does not
have its own PkgPath in its DependsOn list, and neither does any Node stored in
an entry of the map. -/
theorem buildGraph_no_self_edge (pkgOf : String → String) (exported : String → Bool)
    (files : List (String × FileInfo)) (k : String) (n : Node)
    (h : (buildGraph pkgOf exported files).Nodes.get k = some n) :
    n.PkgPath ∉ n.DependsOn ∧ NoSelfEdge (buildGraph pkgOf exported files) := by
  have hall : ∀ (k2 : String) (n2 : Node),
      (buildGraph pkgOf exported files).Nodes.get k2 = some n2 → n2.PkgPath ∉ n2.DependsOn := by
    intro k2 n2 h2
    obtain ⟨h1, h3, _⟩ := buildGraph_inv pkgOf exported files k2 n2 h2
    rw [h1]
    exact h3
  refine ⟨hall k n h, ?_⟩
  intro e he
  exact hall e.1 e.2 (GoMap.get_of_mem e.1 e.2 _
    (foldl_addFile_keys_nodup pkgOf exported files NewDependencyGraph List.nodup_nil) he)

/-- Witness of C1 on a package whose file imports its own package path. -/
theorem buildGraph_no_self_edge_witness :
    (buildGraph layout upperFirst [fileA, fileUtil, fileB]).Nodes.get "pkg/a" =
        some { PkgPath := "pkg/a", Functions := ["Run", "Stop"],
               DependsOn := ["pkg/b", "fmt", "os"],
               Files := ["pkg/a/a.go", "pkg/a/util.go"] } ∧
      "pkg/a" ∉ ["pkg/b", "fmt", "os"] ∧
      NoSelfEdge (buildGraph layout upperFirst [fileA, fileUtil, fileB]) :=
  ⟨by decide, buildGraph_no_self_edge layout upperFirst [fileA, fileUtil, fileB] "pkg/a"
    { PkgPath := "pkg/a", Functions := ["Run", "Stop"], DependsOn := ["pkg/b", "fmt", "os"],
      Files := ["pkg/a/a.go", "pkg/a/util.go"] } (by decide)⟩

/-- C2: the graph is keyed by package path with one Node per distinct path: in
every graph the Graph Builder builds, a Node found under key `k` has PkgPath
`k`, every entry of the map holds a Node whose PkgPath is the entry's key, the
keys are pairwise distinct, and no other key holds a Node with the same
PkgPath. -/
theorem buildGraph_key_is_pkgPath (pkgOf : String → String) (exported : String → Bool)
    (files : List (String × FileInfo)) (k : String) (n : Node)
    (h : (buildGraph pkgOf exported files).Nodes.get k = some n) :
    n.PkgPath = k ∧ KeyIsPkgPath (buildGraph pkgOf exported files) ∧
      (buildGraph pkgOf exported files).Nodes.keys.Nodup ∧
      ∀ (k2 : String) (n2 : Node),
        (buildGraph pkgOf exported files).Nodes.get k2 = some n2 →
          n2.PkgPath = n.PkgPath → k2 = k := by
  have hk := (buildGraph_inv pkgOf exported files k n h).1
  have hnd : (buildGraph pkgOf exported files).Nodes.keys.Nodup :=
    foldl_addFile_keys_nodup pkgOf exported files NewDependencyGraph List.nodup_nil
  refine ⟨hk, ?_, hnd, ?_⟩
  · intro e he
    exact (buildGraph_inv pkgOf exported files e.1 e.2 (GoMap.get_of_mem e.1 e.2 _ hnd he)).1
  · intro k2 n2 h2 heq
    have hk2 := (buildGraph_inv pkgOf exported files k2 n2 h2).1
    rw [← hk2, heq, hk]

/-- Witness of C2 on the Node of `pkg/b` in a graph of two packages. -/
theorem buildGraph_key_is_pkgPath_witness :
    (buildGraph layout upperFirst [fileA, fileUtil, fileB]).Nodes.get "pkg/b" =
        some { PkgPath := "pkg/b", Functions := ["New"], DependsOn := ["pkg/a"],
               Files := ["pkg/b/b.go"] } ∧
      (buildGraph layout upperFirst [fileA, fileUtil, fileB]).Nodes.keys.Nodup :=
  ⟨by decide, (buildGraph_key_is_pkgPath layout upperFirst [fileA, fileUtil, fileB] "pkg/b"
    { PkgPath := "pkg/b", Functions := ["New"], DependsOn := ["pkg/a"],
      Files := ["pkg/b/b.go"] } (by decide)).2.2.1⟩

/-- C8, as stated, fails on a file that imports its own package path: the Node
of `pkg/a` is built, `pkg/a` is an import path of its file `pkg/a/a.go`, and the
Node's DependsOn does not contain it. -/
theorem buildGraph_union_misses_own_path :
    ∃ n : Node,
      (buildGraph layout upperFirst [fileA, fileUtil, fileB]).Nodes.get "pkg/a" = some n ∧
      layout fileA.1 = "pkg/a" ∧ "pkg/a" ∈ fileA.2.Imports ∧ "pkg/a" ∉ n.DependsOn :=
  ⟨{ PkgPath := "pkg/a", Functions := ["Run", "Stop"], DependsOn := ["pkg/b", "fmt", "os"],
     Files := ["pkg/a/a.go", "pkg/a/util.go"] }, by decide, by decide, by decide, by decide⟩

/-- C8, amended: for every package `p` with at least one file, the Graph Builder
builds a Node for `p` whose Functions are exactly the exported functions of the
files of `p`, whose DependsOn are exactly the import paths of the files of `p`
other than `p` itself, and whose Files are exactly the identifiers of the files
of `p`, each without duplicates; for every permutation of the files the Node of
`p` has the same package path and the same sets of functions, import paths and
files (its slices are permutations of those of the first Node). -/
theorem buildGraph_node_union (pkgOf : String → String) (exported : String → Bool)
    (files files2 : List (String × FileInfo)) (p : String)
    (hp : ∃ f ∈ files, pkgOf f.1 = p) (hperm : files.Perm files2) :
    ∃ n n2 : Node,
      (buildGraph pkgOf exported files).Nodes.get p = some n ∧
      (buildGraph pkgOf exported files2).Nodes.get p = some n2 ∧
      n.PkgPath = p ∧
      (∀ x, x ∈ n.Functions ↔
        ∃ f ∈ files, pkgOf f.1 = p ∧ x ∈ f.2.Functions ∧ exported x = true) ∧
      (∀ x, x ∈ n.DependsOn ↔ ∃ f ∈ files, pkgOf f.1 = p ∧ x ∈ f.2.Imports ∧ x ≠ p) ∧
      (∀ x, x ∈ n.Files ↔ ∃ f ∈ files, pkgOf f.1 = p ∧ x = f.1) ∧
      n.Functions.Nodup ∧ n.DependsOn.Nodup ∧ n.Files.Nodup ∧
      n2.PkgPath = n.PkgPath ∧ n2.Functions.Perm n.Functions ∧
      n2.DependsOn.Perm n.DependsOn ∧ n2.Files.Perm n.Files := by
  have key : ∀ fs : List (String × FileInfo), (∃ f ∈ fs, pkgOf f.1 = p) →
      ∃ n : Node, (buildGraph pkgOf exported fs).Nodes.get p = some n ∧ n.PkgPath = p ∧
        (∀ x, x ∈ n.Functions ↔
          ∃ f ∈ fs, pkgOf f.1 = p ∧ x ∈ f.2.Functions ∧ exported x = true) ∧
        (∀ x, x ∈ n.DependsOn ↔ ∃ f ∈ fs, pkgOf f.1 = p ∧ x ∈ f.2.Imports ∧ x ≠ p) ∧
        (∀ x, x ∈ n.Files ↔ ∃ f ∈ fs, pkgOf f.1 = p ∧ x = f.1) ∧
        n.Functions.Nodup ∧ n.DependsOn.Nodup ∧ n.Files.Nodup := by
    intro fs hfs
    have hsome : ((buildGraph pkgOf exported fs).Nodes.get p).isSome = true :=
      (foldl_addFile_isSome pkgOf exported p fs NewDependencyGraph).2 (Or.inr hfs)
    obtain ⟨n, hn⟩ := Option.isSome_iff_exists.1 hsome
    obtain ⟨i1, _, i3, i4, i5⟩ := buildGraph_inv pkgOf exported fs p n hn
    have hempty : NewDependencyGraph.Nodes.get p = none := rfl
    refine ⟨n, hn, i1, ?_, ?_, ?_, i3, i4, i5⟩
    · intro x
      have h := foldl_addFile_mem pkgOf exported Node.Functions
        (fun _ f => f.2.Functions.filter exported)
        (addFile_mem_Functions pkgOf exported) p x fs NewDependencyGraph
      have hn2 : (List.foldl (addFile pkgOf exported) NewDependencyGraph fs).Nodes.get p =
          some n := hn
      simpa [hn2, hempty, sliceOf, List.mem_filter] using h
    · intro x
      have h := foldl_addFile_mem pkgOf exported Node.DependsOn
        (fun q f => f.2.Imports.filter (fun i => i ≠ q))
        (addFile_mem_DependsOn pkgOf exported) p x fs NewDependencyGraph
      have hn2 : (List.foldl (addFile pkgOf exported) NewDependencyGraph fs).Nodes.get p =
          some n := hn
      simpa [hn2, hempty, sliceOf, List.mem_filter] using h
    · intro x
      have h := foldl_addFile_mem pkgOf exported Node.Files
        (fun _ f => [f.1])
        (addFile_mem_Files pkgOf exported) p x fs NewDependencyGraph
      have hn2 : (List.foldl (addFile pkgOf exported) NewDependencyGraph fs).Nodes.get p =
          some n := hn
      simpa [hn2, hempty, sliceOf] using h
  have hp2 : ∃ f ∈ files2, pkgOf f.1 = p := by
    obtain ⟨f, hf, hfp⟩ := hp
    exact ⟨f, hperm.mem_iff.1 hf, hfp⟩
  obtain ⟨n, hn, a1, a2, a3, a4, a5, a6, a7⟩ := key files hp
  obtain ⟨n2, hn2, b1, b2, b3, b4, b5, b6, b7⟩ := key files2 hp2
  refine ⟨n, n2, hn, hn2, a1, a2, a3, a4, a5, a6, a7, by rw [a1, b1], ?_, ?_, ?_⟩
  · rw [List.perm_ext_iff_of_nodup b5 a5]
    intro x
    rw [a2, b2]
    constructor
    · rintro ⟨f, hf, h⟩; exact ⟨f, hperm.mem_iff.2 hf, h⟩
    · rintro ⟨f, hf, h⟩; exact ⟨f, hperm.mem_iff.1 hf, h⟩
  · rw [List.perm_ext_iff_of_nodup b6 a6]
    intro x
    rw [a3, b3]
    constructor
    · rintro ⟨f, hf, h⟩; exact ⟨f, hperm.mem_iff.2 hf, h⟩
    · rintro ⟨f, hf, h⟩; exact ⟨f, hperm.mem_iff.1 hf, h⟩
  · rw [List.perm_ext_iff_of_nodup b7 a7]
    intro x
    rw [a4, b4]
    constructor
    · rintro ⟨f, hf, h⟩; exact ⟨f, hperm.mem_iff.2 hf, h⟩
    · rintro ⟨f, hf, h⟩; exact ⟨f, hperm.mem_iff.1 hf, h⟩

/-- Witness of C8 on the package `pkg/a` of two files, processed in two orders. -/
theorem buildGraph_node_union_witness :
    (∃ f ∈ [fileA, fileUtil, fileB], layout f.1 = "pkg/a") ∧
    [fileA, fileUtil, fileB].Perm [fileB, fileUtil, fileA] ∧
    ∃ n n2 : Node,
      (buildGraph layout upperFirst [fileA, fileUtil, fileB]).Nodes.get "pkg/a" = some n ∧
      (buildGraph layout upperFirst [fileB, fileUtil, fileA]).Nodes.get "pkg/a" = some n2 ∧
      n.PkgPath = "pkg/a" ∧
      (∀ x, x ∈ n.Functions ↔
        ∃ f ∈ [fileA, fileUtil, fileB],
          layout f.1 = "pkg/a" ∧ x ∈ f.2.Functions ∧ upperFirst x = true) ∧
      (∀ x, x ∈ n.DependsOn ↔
        ∃ f ∈ [fileA, fileUtil, fileB], layout f.1 = "pkg/a" ∧ x ∈ f.2.Imports ∧ x ≠ "pkg/a") ∧
      (∀ x, x ∈ n.Files ↔ ∃ f ∈ [fileA, fileUtil, fileB], layout f.1 = "pkg/a" ∧ x = f.1) ∧
      n.Functions.Nodup ∧ n.DependsOn.Nodup ∧ n.Files.Nodup ∧
      n2.PkgPath = n.PkgPath ∧ n2.Functions.Perm n.Functions ∧
      n2.DependsOn.Perm n.DependsOn ∧ n2.Files.Perm n.Files :=
  ⟨⟨fileA, by simp, by decide⟩, by decide,
    buildGraph_node_union layout upperFirst [fileA, fileUtil, fileB] [fileB, fileUtil, fileA]
      "pkg/a" ⟨fileA, by simp, by decide⟩ (by decide)⟩

/-! ## The Type Registry -/

/-- C4, as stated, fails: the StructInfo type holds a value two of whose Methods
entries have the same Name. -/
theorem twoBars_method_names_repeat : ¬ twoBars.methodNames.Nodup := by
  decide

/-- C4, amended: the StructInfo type keeps Methods in a slice and does not
exclude repeated names; the StructInfo returned by NewStructInfo has no two
Methods entries with the same Name, and when no incoming StructInfo has two
Methods entries with the same Name, no StructInfo of the Type Registry has. -/
theorem typeRegistry_method_names_unique (files : List (List StructInfo))
    (h : ∀ f ∈ files, ∀ s ∈ f, s.methodNames.Nodup) (k : String) (s : StructInfo)
    (hs : (typeRegistry files).get k = some s) :
    NewStructInfo.methodNames.Nodup ∧ s.methodNames.Nodup := by
  refine ⟨List.nodup_nil, ?_⟩
  refine (foldl_files_inv (fun _ t => t.methodNames.Nodup) ?_ files (GoMap.make StructInfo)
    ?_ h k s hs).2
  · intro old t _ hold _
    simp only [StructInfo.methodNames, mergeStructInfo, unionMethods, map_foldl_upsertBy]
    exact nodup_unionInto _ _ hold
  · intro k t ht
    simp [GoMap.make, GoMap.get] at ht

/-- Witness of C4 on the two files of the `Foo` scenario. -/
theorem typeRegistry_method_names_unique_witness :
    (∀ f ∈ [structsOfA, structsOfB], ∀ s ∈ f, s.methodNames.Nodup) ∧
    (typeRegistry [structsOfA, structsOfB]).get "Foo" =
      some { Name := "Foo", Comment := "", Fields := [{ Name := "X", Type_ := "int" }],
             Methods := [methodBar, methodBaz] } ∧
    NewStructInfo.methodNames.Nodup ∧ ["Bar", "Baz"].Nodup :=
  ⟨by decide, by decide,
    typeRegistry_method_names_unique [structsOfA, structsOfB] (by decide) "Foo"
      { Name := "Foo", Comment := "", Fields := [{ Name := "X", Type_ := "int" }],
        Methods := [methodBar, methodBaz] } (by decide)⟩

/-- C7: merging the StructInfo lists of a package's files yields exactly one
StructInfo per type name (distinct keys, each StructInfo under its own name, a
name registered exactly when some file has a StructInfo of that name) whose
field names and method names are the unions over the files and whose fields and
methods each come from a file's StructInfo of that name, and for every
permutation of the files the same names are registered with the same field and
method names; for `a.go` declaring `Foo{X int}` with method `Bar` and `b.go`
declaring method `Baz` on `Foo`, the registry is the single StructInfo `Foo`
with field `X:int` and the methods `Bar` and `Baz`, whichever file comes first. -/
theorem typeRegistry_merge_order_independent (files files2 : List (List StructInfo))
    (hperm : files.Perm files2) :
    (typeRegistry files).keys.Nodup ∧
    (∀ k, ((typeRegistry files).get k).isSome = true ↔ ∃ f ∈ files, ∃ s ∈ f, s.Name = k) ∧
    (∀ k s, (typeRegistry files).get k = some s →
      s.Name = k ∧
      (∀ x, x ∈ s.fieldNames ↔ ∃ f ∈ files, ∃ t ∈ f, t.Name = k ∧ x ∈ t.fieldNames) ∧
      (∀ x, x ∈ s.methodNames ↔ ∃ f ∈ files, ∃ t ∈ f, t.Name = k ∧ x ∈ t.methodNames) ∧
      (∀ fld ∈ s.Fields, ∃ f ∈ files, ∃ t ∈ f, t.Name = k ∧ fld ∈ t.Fields) ∧
      (∀ m ∈ s.Methods, ∃ f ∈ files, ∃ t ∈ f, t.Name = k ∧ m ∈ t.Methods) ∧
      ∃ s2, (typeRegistry files2).get k = some s2 ∧ s2.Name = s.Name ∧
        (∀ x, x ∈ s2.fieldNames ↔ x ∈ s.fieldNames) ∧
        (∀ x, x ∈ s2.methodNames ↔ x ∈ s.methodNames)) ∧
    typeRegistry [structsOfA, structsOfB] =
      [("Foo", { Name := "Foo", Comment := "", Fields := [{ Name := "X", Type_ := "int" }],
                 Methods := [methodBar, methodBaz] })] ∧
    typeRegistry [structsOfB, structsOfA] =
      [("Foo", { Name := "Foo", Comment := "", Fields := [{ Name := "X", Type_ := "int" }],
                 Methods := [methodBaz, methodBar] })] := by
  have hempty : ∀ k, (GoMap.make StructInfo).get k = none := fun _ => rfl
  have hsome : ∀ (fs : List (List StructInfo)) (k : String),
      ((typeRegistry fs).get k).isSome = true ↔ ∃ f ∈ fs, ∃ s ∈ f, s.Name = k := by
    intro fs k
    have h := foldl_files_isSome k fs (GoMap.make StructInfo)
    simpa [typeRegistry, hempty] using h
  have hname : ∀ (fs : List (List StructInfo)) (k : String) (s : StructInfo),
      (typeRegistry fs).get k = some s → s.Name = k := by
    intro fs k s hs
    exact (foldl_files_inv (fun _ _ => True) (fun _ _ _ _ _ => trivial) fs (GoMap.make StructInfo)
      (by intro k t ht; simp [GoMap.make, GoMap.get] at ht) (fun _ _ _ _ => trivial) k s hs).1
  have hfields : ∀ (fs : List (List StructInfo)) (k : String) (s : StructInfo),
      (typeRegistry fs).get k = some s →
      ∀ x, x ∈ s.fieldNames ↔ ∃ f ∈ fs, ∃ t ∈ f, t.Name = k ∧ x ∈ t.fieldNames := by
    intro fs k s hs x
    have h := foldl_files_mem StructInfo.fieldNames mergeStructInfo_fieldNames k x fs
      (GoMap.make StructInfo)
    have hs2 : (List.foldl (fun r structs => List.foldl registryAdd r structs)
        (GoMap.make StructInfo) fs).get k = some s := hs
    simpa [hs2, hempty, sliceOf] using h
  have hmethods : ∀ (fs : List (List StructInfo)) (k : String) (s : StructInfo),
      (typeRegistry fs).get k = some s →
      ∀ x, x ∈ s.methodNames ↔ ∃ f ∈ fs, ∃ t ∈ f, t.Name = k ∧ x ∈ t.methodNames := by
    intro fs k s hs x
    have h := foldl_files_mem StructInfo.methodNames mergeStructInfo_methodNames k x fs
      (GoMap.make StructInfo)
    have hs2 : (List.foldl (fun r structs => List.foldl registryAdd r structs)
        (GoMap.make StructInfo) fs).get k = some s := hs
    simpa [hs2, hempty, sliceOf] using h
  have hswap : ∀ (P : StructInfo → Prop),
      (∃ f ∈ files2, ∃ t ∈ f, P t) ↔ ∃ f ∈ files, ∃ t ∈ f, P t := by
    intro P
    constructor
    · rintro ⟨f, hf, h⟩; exact ⟨f, hperm.mem_iff.2 hf, h⟩
    · rintro ⟨f, hf, h⟩; exact ⟨f, hperm.mem_iff.1 hf, h⟩
  refine ⟨foldl_files_keys_nodup files _ List.nodup_nil, hsome files, ?_, by decide, by decide⟩
  intro k s hs
  have hvalues := (foldl_files_inv
    (fun k2 s2 => (∀ fld ∈ s2.Fields, ∃ f ∈ files, ∃ t ∈ f, t.Name = k2 ∧ fld ∈ t.Fields) ∧
      (∀ m ∈ s2.Methods, ∃ f ∈ files, ∃ t ∈ f, t.Name = k2 ∧ m ∈ t.Methods))
    (by
      intro old t hname2 hold ht
      constructor
      · intro fld hfld
        rcases mem_foldl_upsertBy StructField.Name fld t.Fields old.Fields hfld with h1 | h1
        · exact hold.1 fld h1
        · rw [hname2]; exact ht.1 fld h1
      · intro m hm
        rcases mem_foldl_upsertBy StructMethod.Name m t.Methods old.Methods hm with h1 | h1
        · exact hold.2 m h1
        · rw [hname2]; exact ht.2 m h1)
    files (GoMap.make StructInfo)
    (by intro k2 t ht; simp [GoMap.make, GoMap.get] at ht)
    (fun f hf t ht => ⟨fun fld hfld => ⟨f, hf, t, ht, rfl, hfld⟩,
      fun m hm => ⟨f, hf, t, ht, rfl, hm⟩⟩) k s hs).2
  refine ⟨hname files k s hs, hfields files k s hs, hmethods files k s hs, hvalues.1,
    hvalues.2, ?_⟩
  have h2 : ((typeRegistry files2).get k).isSome = true := by
    rw [hsome files2 k, hswap (fun t => t.Name = k), ← hsome files k, hs]
    rfl
  obtain ⟨s2, hs2⟩ := Option.isSome_iff_exists.1 h2
  refine ⟨s2, hs2, ?_, ?_, ?_⟩
  · rw [hname files2 k s2 hs2, hname files k s hs]
  · intro x
    rw [hfields files2 k s2 hs2 x, hfields files k s hs x]
    exact hswap (fun t => t.Name = k ∧ x ∈ t.fieldNames)
  · intro x
    rw [hmethods files2 k s2 hs2 x, hmethods files k s hs x]
    exact hswap (fun t => t.Name = k ∧ x ∈ t.methodNames)

/-- Witness of C7 on the two orders of the files `a.go` and `b.go`. -/
theorem typeRegistry_merge_order_independent_witness :
    [structsOfA, structsOfB].Perm [structsOfB, structsOfA] ∧
    (typeRegistry [structsOfA, structsOfB]).keys.Nodup ∧
    typeRegistry [structsOfA, structsOfB] =
      [("Foo", { Name := "Foo", Comment := "", Fields := [{ Name := "X", Type_ := "int" }],
                 Methods := [methodBar, methodBaz] })] ∧
    typeRegistry [structsOfB, structsOfA] =
      [("Foo", { Name := "Foo", Comment := "", Fields := [{ Name := "X", Type_ := "int" }],
                 Methods := [methodBaz, methodBar] })] :=
  ⟨List.Perm.swap _ _ _,
    (typeRegistry_merge_order_independent [structsOfA, structsOfB] [structsOfB, structsOfA]
      (List.Perm.swap _ _ _)).1,
    (typeRegistry_merge_order_independent [structsOfA, structsOfB] [structsOfB, structsOfA]
      (List.Perm.swap _ _ _)).2.2.2⟩

end Types
